import Mathlib

set_option maxHeartbeats 1000000

/-! Shallow embedding of the transaction service and in-memory storage core
(src/domain/models.rs, src/domain/validation.rs, src/domain/service.rs,
src/storage/memory.rs).  Machine concerns are modelled explicitly:
`f64` becomes an inductive with a rational payload plus the three
non-finite shapes, UUIDs become naturals passed in by the caller (the
source draws them from `Uuid::new_v4`), and `Utc::now()` readings become
explicit `Time` arguments. -/

/-- Model of `uuid::Uuid`: an opaque identifier. -/
abbrev Uuid := Nat

/-- Model of `chrono::DateTime<Utc>`: a point on a totally ordered timeline. -/
abbrev Time := Int

/-- `TransactionStatus` from src/domain/models.rs. -/
inductive TransactionStatus where
  | pending
  | completed
  | failed
  | cancelled
  deriving DecidableEq, Repr

/-- The `Display` impl for `TransactionStatus` (models.rs): uppercase names. -/
def TransactionStatus.toDisplay : TransactionStatus → String
  | .pending => "PENDING"
  | .completed => "COMPLETED"
  | .failed => "FAILED"
  | .cancelled => "CANCELLED"

/-- `TransactionStatus::can_transition_to` from models.rs: the `matches!`
over the three allowed pairs. -/
def TransactionStatus.can_transition_to : TransactionStatus → TransactionStatus → Bool
  | .pending, .completed => true
  | .pending, .failed => true
  | .pending, .cancelled => true
  | _, _ => false

/-- `Currency` from models.rs. -/
inductive Currency where
  | usd | eur | gbp | jpy | cad | aud | chf
  deriving DecidableEq, Repr

/-- Model of Rust `f64` restricted to the structure the core inspects:
a finite value (carried as a rational), the two infinities, and NaN. -/
inductive F64 where
  | finite (q : ℚ)
  | posInf
  | negInf
  | nan
  deriving DecidableEq, Repr

/-- IEEE-754 `a <= 0.0`: false on NaN (all comparisons with NaN are false). -/
def F64.le_zero : F64 → Bool
  | .finite q => decide (q ≤ 0)
  | .posInf => false
  | .negInf => true
  | .nan => false

/-- IEEE-754 `a > 0.0`: false on NaN. -/
def F64.gt_zero : F64 → Bool
  | .finite q => decide (0 < q)
  | .posInf => true
  | .negInf => false
  | .nan => false

/-- Rust `f64::is_finite`: true exactly on finite values (not NaN, not ±∞). -/
def F64.is_finite : F64 → Bool
  | .finite _ => true
  | _ => false

/-- Model of Rust `s.trim().is_empty()`: a string trims to empty exactly when
every character is whitespace. -/
def trimIsEmpty (s : String) : Bool :=
  s.toList.all (fun c => c.isWhitespace)

/-- Model of Rust `str::len()`: the UTF-8 byte length. -/
def byteLen (s : String) : Nat :=
  s.utf8ByteSize

/-- `Transaction` from models.rs. -/
structure Transaction where
  id : Uuid
  idempotency_key : String
  amount : F64
  currency : Currency
  description : String
  status : TransactionStatus
  created_at : Time
  updated_at : Time
  deriving DecidableEq, Repr

/-- `CreateTransactionRequest` from models.rs. -/
structure CreateTransactionRequest where
  idempotency_key : String
  amount : F64
  currency : Currency
  description : String
  deriving DecidableEq, Repr

/-- `AppError` from src/error.rs.  `InvalidStateTransition` carries the
`to_string()` renderings of the two statuses, as in memory.rs. -/
inductive AppError where
  | NotFound (id : String)
  | Validation (msg : String)
  | IdempotencyConflict
  | InvalidStateTransition (fromS : String) (toS : String)
  | Internal (msg : String)
  deriving DecidableEq, Repr

/-- `MAX_DESCRIPTION_LENGTH` from validation.rs. -/
def MAX_DESCRIPTION_LENGTH : Nat := 500

/-- `MAX_IDEMPOTENCY_KEY_LENGTH` from validation.rs. -/
def MAX_IDEMPOTENCY_KEY_LENGTH : Nat := 128

/-- `validate_create_request` from src/domain/validation.rs: six checks in
source order, first failure wins. -/
def validate_create_request (req : CreateTransactionRequest) : Except AppError Unit :=
  if req.amount.le_zero then
    .error (.Validation "Amount must be greater than zero")
  else if !req.amount.is_finite then
    .error (.Validation "Amount must be a finite number")
  else if trimIsEmpty req.description then
    .error (.Validation "Description must not be empty")
  else if byteLen req.description > MAX_DESCRIPTION_LENGTH then
    .error (.Validation ("Description must not exceed " ++ toString MAX_DESCRIPTION_LENGTH ++ " characters"))
  else if trimIsEmpty req.idempotency_key then
    .error (.Validation "Idempotency key must not be empty")
  else if byteLen req.idempotency_key > MAX_IDEMPOTENCY_KEY_LENGTH then
    .error (.Validation ("Idempotency key must not exceed " ++ toString MAX_IDEMPOTENCY_KEY_LENGTH ++ " characters"))
  else
    .ok ()

/-- `InMemoryStorage` from src/storage/memory.rs.  The `HashMap<Uuid,
Transaction>` behind the lock is modelled as a list of transactions with
keyed-replacement insert; iteration order of the map is modelled as list
order (the source promises no particular order). -/
structure InMemoryStorage where
  data : List Transaction
  deriving DecidableEq, Repr

/-- `InMemoryStorage::new` / `Default`. -/
def InMemoryStorage.new : InMemoryStorage := ⟨[]⟩

/-- `Storage::insert` for `InMemoryStorage`: `store.insert(txn.id, txn)` on a
`HashMap` replaces any entry with the same key, otherwise adds one; the call
always returns `Ok(())`. -/
def InMemoryStorage.insert (s : InMemoryStorage) (txn : Transaction) :
    InMemoryStorage × Except AppError Unit :=
  if s.data.any (fun t => t.id == txn.id) then
    (⟨s.data.map (fun t => if t.id == txn.id then txn else t)⟩, .ok ())
  else
    (⟨s.data ++ [txn]⟩, .ok ())

/-- `Storage::get` for `InMemoryStorage`: `store.get(&id).cloned()`. -/
def InMemoryStorage.get (s : InMemoryStorage) (id : Uuid) :
    Except AppError (Option Transaction) :=
  .ok (s.data.find? (fun t => t.id == id))

/-- `Storage::find_by_idempotency_key`: linear scan
`store.values().find(|t| t.idempotency_key == key)`. -/
def InMemoryStorage.find_by_idempotency_key (s : InMemoryStorage) (key : String) :
    Except AppError (Option Transaction) :=
  .ok (s.data.find? (fun t => t.idempotency_key == key))

/-- `Storage::list`: filter by optional status then optional currency
(`Option.all` is Rust's `is_none_or`). -/
def InMemoryStorage.list (s : InMemoryStorage)
    (status : Option TransactionStatus) (currency : Option Currency) :
    Except AppError (List Transaction) :=
  .ok (((s.data.filter (fun t => status.all (fun st => t.status == st))).filter
    (fun t => currency.all (fun c => t.currency == c))))

/-- `Storage::update_status` for `InMemoryStorage`: look up by id (`NotFound`
on absence), consult `can_transition_to` (`InvalidStateTransition` carrying
both displayed statuses, no mutation, on refusal), otherwise set the status,
refresh `updated_at` from the clock, and return the post-update clone. -/
def InMemoryStorage.update_status (s : InMemoryStorage) (id : Uuid)
    (status : TransactionStatus) (now : Time) :
    InMemoryStorage × Except AppError Transaction :=
  match s.data.find? (fun t => t.id == id) with
  | none => (s, .error (.NotFound (toString id)))
  | some txn =>
    if !txn.status.can_transition_to status then
      (s, .error (.InvalidStateTransition txn.status.toDisplay status.toDisplay))
    else
      (⟨s.data.map (fun t => if t.id == id then
          { txn with status := status, updated_at := now } else t)⟩,
       .ok { txn with status := status, updated_at := now })

/-- The transaction literal built in `TransactionService::create`
(service.rs): fresh id, fields copied from the request, status Pending,
both timestamps set to the single `Utc::now()` reading. -/
def newTransaction (req : CreateTransactionRequest) (freshId : Uuid) (now : Time) :
    Transaction :=
  { id := freshId
    idempotency_key := req.idempotency_key
    amount := req.amount
    currency := req.currency
    description := req.description
    status := .pending
    created_at := now
    updated_at := now }

/-- `TransactionService::create` from src/domain/service.rs: validate,
replay on an idempotency-key hit, otherwise build and insert a fresh
transaction.  `freshId` stands for the `Uuid::new_v4()` draw and `now` for
the `Utc::now()` reading. -/
def TransactionService.create (s : InMemoryStorage) (req : CreateTransactionRequest)
    (freshId : Uuid) (now : Time) :
    InMemoryStorage × Except AppError (Transaction × Bool) :=
  match validate_create_request req with
  | .error e => (s, .error e)
  | .ok _ =>
    match s.find_by_idempotency_key req.idempotency_key with
    | .error e => (s, .error e)
    | .ok (some existing) => (s, .ok (existing, false))
    | .ok none =>
      match s.insert (newTransaction req freshId now) with
      | (s2, .error e) => (s2, .error e)
      | (s2, .ok _) => (s2, .ok (newTransaction req freshId now, true))

/-- `TransactionService::get`: delegate to the store, `NotFound` on absence. -/
def TransactionService.get (s : InMemoryStorage) (id : Uuid) :
    Except AppError Transaction :=
  match s.get id with
  | .error e => .error e
  | .ok (some t) => .ok t
  | .ok none => .error (.NotFound (toString id))

/-- `TransactionService::update_status`: delegate directly to the store. -/
def TransactionService.update_status (s : InMemoryStorage) (id : Uuid)
    (status : TransactionStatus) (now : Time) :
    InMemoryStorage × Except AppError Transaction :=
  s.update_status id status now

/-- One service-level call, for reasoning about operation sequences.  Reads
(`get`, `list`, `find_by_idempotency_key`) never mutate the store. -/
inductive ServiceOp where
  | createOp (req : CreateTransactionRequest) (freshId : Uuid)
  | updateOp (id : Uuid) (status : TransactionStatus)
  | getOp (id : Uuid)
  | listOp (status : Option TransactionStatus) (currency : Option Currency)
  | findOp (key : String)

/-- The store after one operation; `now` is the clock reading taken during
that call. -/
def runOp (s : InMemoryStorage) (op : ServiceOp) (now : Time) : InMemoryStorage :=
  match op with
  | .createOp req freshId => (TransactionService.create s req freshId now).1
  | .updateOp id status => (s.update_status id status now).1
  | .getOp _ => s
  | .listOp _ _ => s
  | .findOp _ => s

/-- The store after a sequence of operations, each paired with its clock
reading. -/
def runOps (s : InMemoryStorage) : List (ServiceOp × Time) → InMemoryStorage
  | [] => s
  | (op, t) :: rest => runOps (runOp s op t) rest

/-- Timestamp well-formedness relative to the last clock reading: every
stored transaction has `created_at ≤ updated_at`, and neither timestamp is
in the clock's future. -/
def TimestampsWF (s : InMemoryStorage) (clock : Time) : Prop :=
  ∀ t ∈ s.data, t.created_at ≤ t.updated_at ∧ t.updated_at ≤ clock

deriving instance DecidableEq for Except

/-- `can_transition_to` as a lookup table: it accepts exactly the three
pairs out of Pending. -/
theorem can_transition_to_iff (a b : TransactionStatus) :
    a.can_transition_to b = true ↔
      (a = .pending ∧ (b = .completed ∨ b = .failed ∨ b = .cancelled)) := by
  cases a <;> cases b <;> decide

/-- For a finite float, `a > 0.0` is the negation of `a <= 0.0`. -/
theorem gt_zero_iff_not_le_zero (a : F64) (hfin : a.is_finite = true) :
    a.gt_zero = true ↔ a.le_zero = false := by
  cases a with
  | finite q =>
    simp only [F64.gt_zero, F64.le_zero, decide_eq_true_eq, decide_eq_false_iff_not, not_le]
  | posInf => simp [F64.is_finite] at hfin
  | negInf => simp [F64.is_finite] at hfin
  | nan => simp [F64.is_finite] at hfin

/-- A scan of a cons whose head satisfies the predicate stops at the head. -/
theorem find?_cons_pos (p : Transaction → Bool) (a : Transaction)
    (l : List Transaction) (h : p a = true) : (a :: l).find? p = some a := by
  rw [List.find?_cons, h]

/-- A scan of a cons whose head fails the predicate skips the head. -/
theorem find?_cons_neg (p : Transaction → Bool) (a : Transaction)
    (l : List Transaction) (h : p a = false) : (a :: l).find? p = l.find? p := by
  rw [List.find?_cons, h]

/-- `insert` never fails. -/
theorem insert_snd (s : InMemoryStorage) (txn : Transaction) :
    (s.insert txn).2 = .ok () := by
  unfold InMemoryStorage.insert
  split <;> rfl

/-- `insert` as a pair of its first component and `Ok(())`. -/
theorem insert_eq (s : InMemoryStorage) (txn : Transaction) :
    s.insert txn = ((s.insert txn).1, .ok ()) := by
  rw [← insert_snd s txn]

/-- Replacing the entries keyed `key` in a list where no entry satisfies `p`
by a `p`-satisfying `txn` makes the scan find `txn`, provided some entry is
keyed `key`. -/
theorem find?_map_replace (l : List Transaction) (p : Transaction → Bool)
    (key : Uuid) (txn : Transaction) (hp : p txn = true)
    (hall : ∀ x ∈ l, p x = false) (hany : l.any (fun t => t.id == key) = true) :
    (l.map (fun t => if t.id == key then txn else t)).find? p = some txn := by
  induction l with
  | nil => simp at hany
  | cons h tl ih =>
    simp only [List.map_cons]
    by_cases hid : (h.id == key) = true
    · rw [if_pos hid]
      exact find?_cons_pos p txn _ hp
    · rw [if_neg hid]
      have hph : p h = false := hall h (List.mem_cons_self h tl)
      rw [find?_cons_neg p h _ hph]
      apply ih
      · intro x hx
        exact hall x (List.mem_cons_of_mem h hx)
      · rcases List.any_eq_true.1 hany with ⟨x, hx, hpx⟩
        rcases List.mem_cons.1 hx with rfl | hx2
        · exact absurd hpx hid
        · exact List.any_eq_true.2 ⟨x, hx2, hpx⟩

/-- Replacing the entries keyed `txn.id` by `txn` makes the scan by id find
`txn`, provided some entry is keyed `txn.id`. -/
theorem find?_map_replace_id (l : List Transaction) (txn : Transaction)
    (hany : l.any (fun t => t.id == txn.id) = true) :
    (l.map (fun t => if t.id == txn.id then txn else t)).find?
      (fun t => t.id == txn.id) = some txn := by
  induction l with
  | nil => simp at hany
  | cons h tl ih =>
    simp only [List.map_cons]
    by_cases hid : (h.id == txn.id) = true
    · rw [if_pos hid]
      exact find?_cons_pos _ txn _ (by simp)
    · rw [if_neg hid]
      rw [find?_cons_neg _ h _ (by simpa using hid)]
      apply ih
      rcases List.any_eq_true.1 hany with ⟨x, hx, hpx⟩
      rcases List.mem_cons.1 hx with rfl | hx2
      · exact absurd hpx hid
      · exact List.any_eq_true.2 ⟨x, hx2, hpx⟩

/-- Replacing entries keyed `txn.id` by `txn` does not change what a scan
for a different id finds. -/
theorem find?_map_ne (l : List Transaction) (txn : Transaction) (id : Uuid)
    (hne : txn.id ≠ id) :
    (l.map (fun t => if t.id == txn.id then txn else t)).find?
        (fun t => t.id == id) =
      l.find? (fun t => t.id == id) := by
  induction l with
  | nil => rfl
  | cons h tl ih =>
    simp only [List.map_cons]
    by_cases hid : (h.id == txn.id) = true
    · rw [if_pos hid]
      have h0 : h.id = txn.id := by simpa using hid
      have h1 : (txn.id == id) = false := by simpa using hne
      have h2 : (h.id == id) = false := by rw [h0]; simpa using hne
      rw [find?_cons_neg _ txn _ h1, find?_cons_neg _ h _ h2]
      exact ih
    · rw [if_neg hid]
      by_cases hpid : (h.id == id) = true
      · rw [find?_cons_pos _ h _ hpid, find?_cons_pos _ h _ hpid]
      · rw [find?_cons_neg _ h _ (Bool.eq_false_iff.mpr hpid),
          find?_cons_neg _ h _ (Bool.eq_false_iff.mpr hpid)]
        exact ih

/-- After inserting `txn` into a store where no entry satisfies `p`, a
`p`-scan finds `txn` whenever `txn` satisfies `p`. -/
theorem find?_insert_self (s : InMemoryStorage) (txn : Transaction)
    (p : Transaction → Bool) (hp : p txn = true)
    (hnone : s.data.find? p = none) :
    (s.insert txn).1.data.find? p = some txn := by
  have hall : ∀ x ∈ s.data, p x = false := by
    intro x hx
    have := List.find?_eq_none.1 hnone x hx
    simpa using this
  unfold InMemoryStorage.insert
  split
  · exact find?_map_replace s.data p txn.id txn hp hall (by assumption)
  · rw [List.find?_append, hnone, find?_cons_pos p txn [] hp]
    rfl

/-- After inserting `txn`, a scan by `txn.id` finds exactly `txn`
(replacement or fresh addition alike). -/
theorem find?_insert_id (s : InMemoryStorage) (txn : Transaction) :
    (s.insert txn).1.data.find? (fun t => t.id == txn.id) = some txn := by
  unfold InMemoryStorage.insert
  split
  · exact find?_map_replace_id s.data txn (by assumption)
  · next hany =>
    have hnone : s.data.find? (fun t => t.id == txn.id) = none := by
      apply List.find?_eq_none.2
      intro x hx hpx
      exact hany (List.any_eq_true.2 ⟨x, hx, hpx⟩)
    rw [List.find?_append, hnone,
      find?_cons_pos (fun t => t.id == txn.id) txn [] (by simp)]
    rfl

/-- Inserting a transaction with a different id does not change what a scan
by id finds. -/
theorem find?_insert_ne (s : InMemoryStorage) (txn : Transaction) (id : Uuid)
    (hne : txn.id ≠ id) :
    (s.insert txn).1.data.find? (fun t => t.id == id) =
      s.data.find? (fun t => t.id == id) := by
  unfold InMemoryStorage.insert
  split
  · exact find?_map_ne s.data txn id hne
  · rw [List.find?_append]
    have h1 : ([txn].find? (fun t => t.id == id)) = none := by
      rw [find?_cons_neg (fun t => t.id == id) txn [] (by simpa using hne)]
      rfl
    rw [h1]
    exact Option.or_none

/-- After inserting a transaction that fails `p` into a store where no entry
satisfies `p`, still no entry satisfies `p`. -/
theorem find?_insert_none (s : InMemoryStorage) (txn : Transaction)
    (p : Transaction → Bool) (hp : p txn = false)
    (hnone : s.data.find? p = none) :
    (s.insert txn).1.data.find? p = none := by
  have hall : ∀ x ∈ s.data, p x = false := by
    intro x hx
    have := List.find?_eq_none.1 hnone x hx
    simpa using this
  apply List.find?_eq_none.2
  intro x hx
  unfold InMemoryStorage.insert at hx
  split at hx
  · rcases List.mem_map.1 hx with ⟨t, ht, heq⟩
    by_cases hid : (t.id == txn.id) = true
    · rw [if_pos hid] at heq
      rw [← heq]
      simp [hp]
    · rw [if_neg hid] at heq
      rw [← heq]
      simp [hall t ht]
  · rcases List.mem_append.1 hx with h2 | h2
    · simp [hall x h2]
    · rcases List.mem_singleton.1 h2 with rfl
      simp [hp]

/-- Every member of the store after `insert` is the inserted transaction or
was already present. -/
theorem mem_insert_elim (s : InMemoryStorage) (txn u : Transaction)
    (hu : u ∈ (s.insert txn).1.data) : u = txn ∨ u ∈ s.data := by
  unfold InMemoryStorage.insert at hu
  split at hu
  · rcases List.mem_map.1 hu with ⟨t, ht, heq⟩
    by_cases hid : (t.id == txn.id) = true
    · rw [if_pos hid] at heq
      exact Or.inl heq.symm
    · rw [if_neg hid] at heq
      exact Or.inr (heq ▸ ht)
  · rcases List.mem_append.1 hu with h2 | h2
    · exact Or.inr h2
    · exact Or.inl (List.mem_singleton.1 h2)

/-- Replacing the entries keyed `id` by a transaction that itself carries
id `id` makes the scan by `id` find it, provided some entry is keyed `id`. -/
theorem find?_map_replace_key (l : List Transaction) (id : Uuid)
    (txn2 : Transaction) (hid2 : txn2.id = id)
    (hany : l.any (fun t => t.id == id) = true) :
    (l.map (fun t => if t.id == id then txn2 else t)).find?
      (fun t => t.id == id) = some txn2 := by
  subst hid2
  exact find?_map_replace_id l txn2 hany

/-- Every member of the store after `update_status` either was already
present or is a present transaction with its status and `updated_at`
rewritten. -/
theorem mem_update_status_elim (s : InMemoryStorage) (id : Uuid)
    (st : TransactionStatus) (now : Time) (u : Transaction)
    (hu : u ∈ (s.update_status id st now).1.data) :
    u ∈ s.data ∨ ∃ t ∈ s.data, u = { t with status := st, updated_at := now } := by
  unfold InMemoryStorage.update_status at hu
  split at hu
  · exact Or.inl hu
  · next txn hf =>
    split at hu
    · exact Or.inl hu
    · simp only at hu
      rcases List.mem_map.1 hu with ⟨t, ht, heq⟩
      by_cases hid : (t.id == id) = true
      · rw [if_pos hid] at heq
        exact Or.inr ⟨txn, List.mem_of_find?_eq_some hf, heq.symm⟩
      · rw [if_neg hid] at heq
        exact Or.inl (heq ▸ ht)

/-- A successful `update_status` in full: the guard passes, the result is
the post-update snapshot, and the store carries exactly the rewritten
transaction at that id. -/
theorem update_status_ok (s : InMemoryStorage) (id : Uuid) (t : Transaction)
    (target : TransactionStatus) (now : Time)
    (hfind : s.data.find? (fun u => u.id == id) = some t)
    (hcan : t.status.can_transition_to target = true) :
    s.update_status id target now =
      (⟨s.data.map (fun u => if u.id == id then
          { t with status := target, updated_at := now } else u)⟩,
       .ok { t with status := target, updated_at := now }) := by
  unfold InMemoryStorage.update_status
  rw [hfind]
  simp only [hcan, Bool.not_true, Bool.false_eq_true, if_false]

/-- A refused `update_status` in full: the guard fails, the store is
untouched, and the error carries both displayed statuses. -/
theorem update_status_refused (s : InMemoryStorage) (id : Uuid) (t : Transaction)
    (target : TransactionStatus) (now : Time)
    (hfind : s.data.find? (fun u => u.id == id) = some t)
    (hcan : t.status.can_transition_to target = false) :
    s.update_status id target now =
      (s, .error (.InvalidStateTransition t.status.toDisplay target.toDisplay)) := by
  unfold InMemoryStorage.update_status
  rw [hfind]
  simp only [hcan, Bool.not_false, if_true]

/-- `Service.create` on a validated request whose key misses the store:
the fresh transaction is built and inserted and `created = true`. -/
theorem create_fresh (s : InMemoryStorage) (req : CreateTransactionRequest)
    (freshId : Uuid) (now : Time)
    (hval : validate_create_request req = .ok ())
    (hnone : s.data.find? (fun t => t.idempotency_key == req.idempotency_key) = none) :
    TransactionService.create s req freshId now =
      ((s.insert (newTransaction req freshId now)).1,
       .ok (newTransaction req freshId now, true)) := by
  unfold TransactionService.create InMemoryStorage.find_by_idempotency_key
  rw [hval, hnone, insert_eq]

/-- `Service.create` on a validated request whose key hits the store:
the hit is returned unchanged with `created = false` and no mutation. -/
theorem create_replay (s : InMemoryStorage) (req : CreateTransactionRequest)
    (freshId : Uuid) (now : Time) (t : Transaction)
    (hval : validate_create_request req = .ok ())
    (hsome : s.data.find? (fun u => u.idempotency_key == req.idempotency_key) = some t) :
    TransactionService.create s req freshId now = (s, .ok (t, false)) := by
  unfold TransactionService.create InMemoryStorage.find_by_idempotency_key
  rw [hval, hsome]

/-- Elimination form of a `created = true` outcome of `Service.create`:
the request validated, its key missed the store, the returned transaction
is the freshly built one, and the store is the insert result. -/
theorem create_true_elim (s s1 : InMemoryStorage) (req : CreateTransactionRequest)
    (freshId : Uuid) (now : Time) (t1 : Transaction)
    (h : TransactionService.create s req freshId now = (s1, .ok (t1, true))) :
    validate_create_request req = .ok () ∧
    s.data.find? (fun t => t.idempotency_key == req.idempotency_key) = none ∧
    t1 = newTransaction req freshId now ∧
    s1 = (s.insert (newTransaction req freshId now)).1 := by
  unfold TransactionService.create InMemoryStorage.find_by_idempotency_key at h
  rcases hval : validate_create_request req with e | ⟨⟩
  · rw [hval] at h
    simp at h
  · rw [hval] at h
    rcases hfind : s.data.find? (fun t => t.idempotency_key == req.idempotency_key)
      with _ | t
    · rw [hfind, insert_eq] at h
      simp at h
      exact ⟨rfl, hfind, h.2.symm, h.1.symm⟩
    · rw [hfind] at h
      simp at h

/-- Every member of the store after `Service.create` is the fresh
transaction or was already present. -/
theorem mem_create_elim (s : InMemoryStorage) (req : CreateTransactionRequest)
    (freshId : Uuid) (now : Time) (u : Transaction)
    (hu : u ∈ (TransactionService.create s req freshId now).1.data) :
    u = newTransaction req freshId now ∨ u ∈ s.data := by
  unfold TransactionService.create at hu
  split at hu
  · exact Or.inr hu
  · split at hu
    · exact Or.inr hu
    · exact Or.inr hu
    · split at hu
      · next s2 e heq =>
        have h2 := congrArg Prod.snd heq
        rw [insert_snd] at h2
        simp at h2
      · next s2 u2 heq =>
        have h1 : (s.insert (newTransaction req freshId now)).1 = s2 := by
          rw [heq]
        have hu2 : u ∈ s2.data := hu
        rw [← h1] at hu2
        exact mem_insert_elim s (newTransaction req freshId now) u hu2


/-- Timestamp well-formedness is monotone in the clock bound. -/
theorem timestampsWF_mono (s : InMemoryStorage) (c c2 : Time)
    (hwf : TimestampsWF s c) (hc : c ≤ c2) : TimestampsWF s c2 := by
  intro t ht
  exact ⟨(hwf t ht).1, le_trans (hwf t ht).2 hc⟩

/-- One operation taken at a clock reading no earlier than the previous
one preserves timestamp well-formedness. -/
theorem runOp_wf (s : InMemoryStorage) (op : ServiceOp) (c now : Time)
    (hwf : TimestampsWF s c) (hc : c ≤ now) :
    TimestampsWF (runOp s op now) now := by
  cases op with
  | createOp req freshId =>
    intro u hu
    rcases mem_create_elim s req freshId now u hu with rfl | hmem
    · exact ⟨le_refl _, le_refl _⟩
    · exact (timestampsWF_mono s c now hwf hc) u hmem
  | updateOp id st =>
    intro u hu
    rcases mem_update_status_elim s id st now u hu with hmem | ⟨t, ht, rfl⟩
    · exact (timestampsWF_mono s c now hwf hc) u hmem
    · exact ⟨le_trans (hwf t ht).1 (le_trans (hwf t ht).2 hc), le_refl _⟩
  | getOp id => exact timestampsWF_mono s c now hwf hc
  | listOp a b => exact timestampsWF_mono s c now hwf hc
  | findOp k => exact timestampsWF_mono s c now hwf hc

/-- Model of Rust `str::trim`, as the character list left after dropping
whitespace from both ends.  Two keys differ only in leading or trailing
whitespace exactly when they are unequal strings with equal trims. -/
def trimmedChars (s : String) : List Char :=
  ((s.toList.dropWhile Char.isWhitespace).reverse.dropWhile
    Char.isWhitespace).reverse

/-- `validate_create_request` succeeds exactly when every one of the six
checks passes, phrased with the source's own `a <= 0.0` comparison. -/
theorem validate_ok_iff (req : CreateTransactionRequest) :
    validate_create_request req = .ok () ↔
      (req.amount.le_zero = false ∧ req.amount.is_finite = true ∧
       trimIsEmpty req.description = false ∧
       byteLen req.description ≤ MAX_DESCRIPTION_LENGTH ∧
       trimIsEmpty req.idempotency_key = false ∧
       byteLen req.idempotency_key ≤ MAX_IDEMPOTENCY_KEY_LENGTH) := by
  unfold validate_create_request
  split_ifs with h1 h2 h3 h4 h5 h6 <;> simp_all [not_lt]

/-- C4: `validate_create_request` returns Ok exactly when all six
conditions hold of the request — amount > 0, amount finite, trimmed
description non-empty, description byte length at most 500, trimmed
idempotency key non-empty, key byte length at most 128 — and otherwise it
returns a `ValidationError`; being a plain function of the request, it has
no side effects. -/
theorem C4_validation_characterization (req : CreateTransactionRequest) :
    (validate_create_request req = .ok () ↔
      (req.amount.gt_zero = true ∧ req.amount.is_finite = true ∧
       trimIsEmpty req.description = false ∧
       byteLen req.description ≤ MAX_DESCRIPTION_LENGTH ∧
       trimIsEmpty req.idempotency_key = false ∧
       byteLen req.idempotency_key ≤ MAX_IDEMPOTENCY_KEY_LENGTH))
    ∧ (validate_create_request req = .ok () ∨
       ∃ msg, validate_create_request req = .error (.Validation msg)) := by
  constructor
  · rw [validate_ok_iff]
    constructor
    · rintro ⟨ha, hf, rest⟩
      exact ⟨(gt_zero_iff_not_le_zero _ hf).2 ha, hf, rest⟩
    · rintro ⟨hg, hf, rest⟩
      exact ⟨(gt_zero_iff_not_le_zero _ hf).1 hg, hf, rest⟩
  · unfold validate_create_request
    split_ifs <;> first | exact Or.inl rfl | exact Or.inr ⟨_, rfl⟩

/-- A request with a NaN amount, used to separate the first two
validation checks. -/
def nanRequest : CreateTransactionRequest :=
  { idempotency_key := "txn-001", amount := .nan, currency := .usd,
    description := "Invoice payment" }

/-- C5 counterexample: a NaN amount does not satisfy `amount > 0`, yet
`validate_create_request` rejects it with the check-2 finiteness message,
not the check-1 message the claim asserts (IEEE `NaN <= 0.0` is false, so
check 1 passes NaN through). -/
theorem C5_counterexample_nan :
    nanRequest.amount.gt_zero = false ∧
    validate_create_request nanRequest =
      .error (.Validation "Amount must be a finite number") ∧
    ("Amount must be a finite number" : String) ≠
      "Amount must be greater than zero" := by
  refine ⟨rfl, by decide, by decide⟩

/-- C5 amended: for every request whose amount satisfies the source's
`amount <= 0.0` comparison (zero, negative, and −∞; NaN excluded because
IEEE comparisons with NaN are false), validation rejects with the check-1
message before any later check is consulted. -/
theorem C5_amended_first_check (req : CreateTransactionRequest)
    (h : req.amount.le_zero = true) :
    validate_create_request req =
      .error (.Validation "Amount must be greater than zero") := by
  unfold validate_create_request
  rw [h]
  rfl

/-- A request with amount zero, exercising the first validation check. -/
def zeroAmountRequest : CreateTransactionRequest :=
  { idempotency_key := "txn-002", amount := .finite 0, currency := .usd,
    description := "Zero payment" }

/-- Concrete instance of the amended C5 at amount = 0. -/
theorem C5_amended_first_check_witness :
    zeroAmountRequest.amount.le_zero = true ∧
    validate_create_request zeroAmountRequest =
      .error (.Validation "Amount must be greater than zero") :=
  ⟨by decide, C5_amended_first_check zeroAmountRequest (by decide)⟩

/-- C7: after any sequence of service-level operations whose clock readings
are monotone non-decreasing, every transaction in the store satisfies
`updated_at ≥ created_at`: creation sets both timestamps to one instant and
every successful status update only moves `updated_at` forward. -/
theorem C7_updated_at_ge_created_at (s : InMemoryStorage) (c : Time)
    (ops : List (ServiceOp × Time))
    (hwf : TimestampsWF s c)
    (hmono : List.Chain' (fun a b => a ≤ b) (c :: ops.map Prod.snd)) :
    ∀ u ∈ (runOps s ops).data, u.created_at ≤ u.updated_at := by
  induction ops generalizing s c with
  | nil =>
    intro u hu
    exact (hwf u hu).1
  | cons p rest ih =>
    rcases p with ⟨op, tm⟩
    have h1 : c ≤ tm ∧ List.Chain' (fun a b => a ≤ b) (tm :: rest.map Prod.snd) := by
      simpa [List.chain'_cons] using hmono
    intro u hu
    exact ih (runOp s op tm) tm (runOp_wf s op c tm hwf h1.1) h1.2 u hu

/-- C1: for a stored transaction, `update_status` succeeds exactly on the
three pairs (Pending, Completed), (Pending, Failed), (Pending, Cancelled);
on every other pair it fails with an `InvalidStateTransition` error
carrying both the current and the requested status and leaves the store —
hence the stored transaction — unchanged, so the same invalid call repeated
at any later clock yields the identical error and an identical store. -/
theorem C1_update_status_guard (s : InMemoryStorage) (id : Uuid)
    (t : Transaction) (target : TransactionStatus) (now now2 : Time)
    (hfind : s.data.find? (fun u => u.id == id) = some t) :
    ((∃ t2, (s.update_status id target now).2 = .ok t2) ↔
      ((t.status, target) = (.pending, .completed) ∨
       (t.status, target) = (.pending, .failed) ∨
       (t.status, target) = (.pending, .cancelled)))
    ∧ (¬ ((t.status, target) = (.pending, .completed) ∨
          (t.status, target) = (.pending, .failed) ∨
          (t.status, target) = (.pending, .cancelled)) →
        s.update_status id target now =
          (s, .error (.InvalidStateTransition t.status.toDisplay target.toDisplay)) ∧
        s.update_status id target now2 =
          (s, .error (.InvalidStateTransition t.status.toDisplay target.toDisplay))) := by
  have hpair : t.status.can_transition_to target = true ↔
      ((t.status, target) = (.pending, .completed) ∨
       (t.status, target) = (.pending, .failed) ∨
       (t.status, target) = (.pending, .cancelled)) := by
    cases t.status <;> cases target <;> decide
  cases hc : t.status.can_transition_to target with
  | false =>
    have hupd := update_status_refused s id t target now hfind hc
    have hupd2 := update_status_refused s id t target now2 hfind hc
    constructor
    · constructor
      · rintro ⟨t2, ht2⟩
        rw [hupd] at ht2
        simp at ht2
      · intro hin
        rw [← hpair, hc] at hin
        simp at hin
    · intro _
      exact ⟨hupd, hupd2⟩
  | true =>
    have hupd := update_status_ok s id t target now hfind hc
    constructor
    · constructor
      · intro _
        exact hpair.1 hc
      · intro _
        exact ⟨{ t with status := target, updated_at := now }, by rw [hupd]⟩
    · intro hin
      exact absurd (hpair.1 hc) hin

/-- C6: for a stored transaction whose status is Pending and a target among
Completed, Failed, Cancelled, `update_status` succeeds, sets the status to
the target and `updated_at` to the clock reading, leaves every other field
and every other stored transaction unchanged, and returns a snapshot equal
to the post-update stored transaction. -/
theorem C6_pending_transition_frame (s : InMemoryStorage) (id : Uuid)
    (t : Transaction) (target : TransactionStatus) (now : Time)
    (hfind : s.data.find? (fun u => u.id == id) = some t)
    (hst : t.status = .pending)
    (htg : target = .completed ∨ target = .failed ∨ target = .cancelled) :
    (s.update_status id target now).2 =
      .ok { t with status := target, updated_at := now }
    ∧ (s.update_status id target now).1.data.find? (fun u => u.id == id) =
        some { t with status := target, updated_at := now }
    ∧ ({ t with status := target, updated_at := now }).id = t.id
    ∧ ({ t with status := target, updated_at := now }).idempotency_key =
        t.idempotency_key
    ∧ ({ t with status := target, updated_at := now }).amount = t.amount
    ∧ ({ t with status := target, updated_at := now }).currency = t.currency
    ∧ ({ t with status := target, updated_at := now }).description =
        t.description
    ∧ ({ t with status := target, updated_at := now }).created_at = t.created_at
    ∧ ({ t with status := target, updated_at := now }).status = target
    ∧ ({ t with status := target, updated_at := now }).updated_at = now
    ∧ (∀ u ∈ s.data, u.id ≠ id → u ∈ (s.update_status id target now).1.data)
    ∧ (∀ u ∈ (s.update_status id target now).1.data, u.id ≠ id → u ∈ s.data) := by
  have hcan : t.status.can_transition_to target = true := by
    rw [hst]
    rcases htg with rfl | rfl | rfl <;> rfl
  have hupd := update_status_ok s id t target now hfind hcan
  have htid : t.id = id := by
    have h2 := List.find?_some hfind
    simpa using h2
  refine ⟨by rw [hupd], ?_, rfl, rfl, rfl, rfl, rfl, rfl, rfl, rfl, ?_, ?_⟩
  · rw [hupd]
    apply find?_map_replace_key
    · exact htid
    · exact List.any_eq_true.2
        ⟨t, List.mem_of_find?_eq_some hfind, by simp [htid]⟩
  · intro u hu hne
    rw [hupd]
    exact List.mem_map.2 ⟨u, hu, by rw [if_neg (by simpa using hne)]⟩
  · intro u hu hne
    rw [hupd] at hu
    rcases List.mem_map.1 hu with ⟨v, hv, heq⟩
    by_cases hvid : (v.id == id) = true
    · rw [if_pos hvid] at heq
      exfalso
      apply hne
      rw [← heq]
      exact htid
    · rw [if_neg hvid] at heq
      exact heq ▸ hv

/-- C2: after a first `Service.create` that succeeded with `created = true`,
a second validated call with the same idempotency key returns the first
call's transaction unchanged with `created = false`, inserts nothing (the
store is returned untouched), and the outcome is the same for every
amount, currency and description in the second request. -/
theorem C2_idempotent_replay (s s1 : InMemoryStorage)
    (req1 req2 : CreateTransactionRequest) (id1 id2 : Uuid) (n1 n2 : Time)
    (t1 : Transaction)
    (h1 : TransactionService.create s req1 id1 n1 = (s1, .ok (t1, true)))
    (hkey : req2.idempotency_key = req1.idempotency_key)
    (hval2 : validate_create_request req2 = .ok ()) :
    TransactionService.create s1 req2 id2 n2 = (s1, .ok (t1, false)) := by
  obtain ⟨hval1, hnone, ht1, hs1⟩ := create_true_elim s s1 req1 id1 n1 t1 h1
  have hfind : s1.data.find?
      (fun u => u.idempotency_key == req2.idempotency_key) = some t1 := by
    rw [hs1, ht1]
    apply find?_insert_self
    · simp [newTransaction, hkey]
    · rw [hkey]
      exact hnone
  exact create_replay s1 req2 id2 n2 t1 hval2 hfind

/-- C3: a validated request whose idempotency key misses the store makes
`Service.create` return `created = true` together with a transaction whose
status is Pending, whose two timestamps both equal the single clock
reading, whose key, amount, currency and description are copied verbatim
from the request, and which is stored so that a `Service.get` on its id
succeeds and returns it. -/
theorem C3_create_fresh_transaction (s : InMemoryStorage)
    (req : CreateTransactionRequest) (freshId : Uuid) (now : Time)
    (hval : validate_create_request req = .ok ())
    (hnone : s.find_by_idempotency_key req.idempotency_key = .ok none) :
    TransactionService.create s req freshId now =
      ((s.insert (newTransaction req freshId now)).1,
       .ok (newTransaction req freshId now, true))
    ∧ (newTransaction req freshId now).status = .pending
    ∧ (newTransaction req freshId now).created_at = now
    ∧ (newTransaction req freshId now).updated_at = now
    ∧ (newTransaction req freshId now).idempotency_key = req.idempotency_key
    ∧ (newTransaction req freshId now).amount = req.amount
    ∧ (newTransaction req freshId now).currency = req.currency
    ∧ (newTransaction req freshId now).description = req.description
    ∧ (newTransaction req freshId now).id = freshId
    ∧ TransactionService.get (TransactionService.create s req freshId now).1
        freshId = .ok (newTransaction req freshId now) := by
  have hnone2 : s.data.find?
      (fun t => t.idempotency_key == req.idempotency_key) = none := by
    simpa [InMemoryStorage.find_by_idempotency_key] using hnone
  have hc := create_fresh s req freshId now hval hnone2
  refine ⟨hc, rfl, rfl, rfl, rfl, rfl, rfl, rfl, rfl, ?_⟩
  have hfst : (TransactionService.create s req freshId now).1 =
      (s.insert (newTransaction req freshId now)).1 := by
    rw [hc]
  rw [hfst]
  unfold TransactionService.get InMemoryStorage.get
  have hf : (s.insert (newTransaction req freshId now)).1.data.find?
      (fun t => t.id == freshId) = some (newTransaction req freshId now) := by
    simpa [newTransaction] using
      find?_insert_id s (newTransaction req freshId now)
  rw [hf]

/-- C9: `Store.insert` always returns success; when a transaction with the
same id is already present, the existing entry is silently replaced (a
lookup afterwards returns the new transaction and the store's size does not
grow) rather than the call being rejected. -/
theorem C9_insert_replaces_silently (s : InMemoryStorage) (txn : Transaction) :
    (s.insert txn).2 = .ok ()
    ∧ (s.insert txn).1.get txn.id = .ok (some txn)
    ∧ (s.data.any (fun t => t.id == txn.id) = true →
        (s.insert txn).1.data.length = s.data.length) := by
  refine ⟨insert_snd s txn, ?_, ?_⟩
  · unfold InMemoryStorage.get
    rw [find?_insert_id]
  · intro hany
    unfold InMemoryStorage.insert
    rw [if_pos hany]
    simp

/-- C10: idempotency-key matching in creation is exact, untrimmed string
equality: when a second validated create carries a key that differs from
the first call's key only in leading or trailing whitespace (the strings
are unequal but their trims coincide), it is not treated as a replay — it
creates and inserts a second transaction under the fresh id, and (when
that id is distinct) the first transaction is still stored alongside it. -/
theorem C10_whitespace_key_distinct (s s1 : InMemoryStorage)
    (req1 req2 : CreateTransactionRequest) (id1 id2 : Uuid) (n1 n2 : Time)
    (t1 : Transaction)
    (h1 : TransactionService.create s req1 id1 n1 = (s1, .ok (t1, true)))
    (hkeyne : req2.idempotency_key ≠ req1.idempotency_key)
    (hws : trimmedChars req2.idempotency_key =
      trimmedChars req1.idempotency_key)
    (hval2 : validate_create_request req2 = .ok ())
    (habsent : s.data.find?
      (fun t => t.idempotency_key == req2.idempotency_key) = none) :
    TransactionService.create s1 req2 id2 n2 =
      ((s1.insert (newTransaction req2 id2 n2)).1,
       .ok (newTransaction req2 id2 n2, true))
    ∧ t1.id = id1
    ∧ (newTransaction req2 id2 n2).id = id2
    ∧ (id2 ≠ t1.id →
        (s1.insert (newTransaction req2 id2 n2)).1.data.find?
          (fun u => u.id == t1.id) = some t1) := by
  obtain ⟨hval1, hnone1, ht1, hs1⟩ := create_true_elim s s1 req1 id1 n1 t1 h1
  have habsent1 : s1.data.find?
      (fun t => t.idempotency_key == req2.idempotency_key) = none := by
    rw [hs1]
    apply find?_insert_none
    · have h4 : req1.idempotency_key ≠ req2.idempotency_key :=
        fun h => hkeyne h.symm
      simpa [newTransaction] using h4
    · exact habsent
  have hc := create_fresh s1 req2 id2 n2 hval2 habsent1
  refine ⟨hc, by rw [ht1]; rfl, rfl, ?_⟩
  intro hne
  have hfind1 : s1.data.find? (fun u => u.id == t1.id) = some t1 := by
    rw [hs1, ht1]
    exact find?_insert_id s (newTransaction req1 id1 n1)
  rw [find?_insert_ne s1 (newTransaction req2 id2 n2) t1.id
    (fun hcontra => hne hcontra)]
  exact hfind1

/-- A valid creation request used for concrete instances. -/
def reqA : CreateTransactionRequest :=
  { idempotency_key := "txn-001", amount := .finite 100, currency := .usd,
    description := "Invoice payment" }

/-- The transaction `reqA` produces under id 1 at clock 0. -/
def txnA : Transaction := newTransaction reqA 1 0

/-- A store holding exactly `txnA`. -/
def storeA : InMemoryStorage := ⟨[txnA]⟩

/-- A replay of `reqA`'s key with a different amount, currency and
description. -/
def reqB : CreateTransactionRequest :=
  { idempotency_key := "txn-001", amount := .finite 999, currency := .eur,
    description := "Different payload" }

/-- `reqA`'s key with a trailing space appended. -/
def reqC : CreateTransactionRequest :=
  { idempotency_key := "txn-001 ", amount := .finite 100, currency := .usd,
    description := "Invoice payment" }

/-- A two-operation run: create `reqA`, then complete it. -/
def opsA : List (ServiceOp × Time) :=
  [(.createOp reqA 1, 0), (.updateOp 1 .completed, 5)]

/-- Concrete instance of C1: re-requesting Pending on a pending
transaction is refused and mutates nothing. -/
theorem C1_update_status_guard_witness :
    storeA.update_status 1 .pending 5 =
      (storeA, .error (.InvalidStateTransition "PENDING" "PENDING")) :=
  ((C1_update_status_guard storeA 1 txnA .pending 5 7 (by decide)).2
    (by decide)).1

/-- Concrete instance of C2: replaying `reqA`'s key with a different
payload returns the original transaction and `created = false`. -/
theorem C2_idempotent_replay_witness :
    TransactionService.create storeA reqB 2 9 = (storeA, .ok (txnA, false)) :=
  C2_idempotent_replay InMemoryStorage.new storeA reqA reqB 1 2 0 9 txnA
    (by decide) (by decide) (by decide)

/-- Concrete instance of C3: creating `reqA` in an empty store inserts the
fresh pending transaction and reports `created = true`. -/
theorem C3_create_fresh_transaction_witness :
    TransactionService.create InMemoryStorage.new reqA 1 0 =
      ((InMemoryStorage.new.insert (newTransaction reqA 1 0)).1,
       .ok (newTransaction reqA 1 0, true)) :=
  (C3_create_fresh_transaction InMemoryStorage.new reqA 1 0
    (by decide) (by decide)).1

/-- Concrete instance of C6: completing the pending `txnA` returns the
post-update snapshot. -/
theorem C6_pending_transition_frame_witness :
    (storeA.update_status 1 .completed 5).2 =
      .ok { txnA with status := .completed, updated_at := 5 } :=
  (C6_pending_transition_frame storeA 1 txnA .completed 5
    (by decide) (by decide) (Or.inl rfl)).1

/-- Concrete instance of C7 on the two-operation run `opsA`, evaluated at
the completed transaction that run leaves in the store. -/
theorem C7_updated_at_ge_created_at_witness :
    ({ txnA with status := .completed, updated_at := 5 }).created_at ≤
      ({ txnA with status := .completed, updated_at := 5 }).updated_at :=
  C7_updated_at_ge_created_at InMemoryStorage.new 0 opsA
    (by intro t ht; simp [InMemoryStorage.new] at ht)
    (by
      simp only [opsA, List.map_cons, List.map_nil, List.chain'_cons]
      refine ⟨le_refl 0, ?_, List.chain'_singleton 5⟩
      show (0:Int) ≤ 5
      omega)
    { txnA with status := .completed, updated_at := 5 }
    (by decide)

/-- Concrete instance of C10: the whitespace-variant key is a fresh
creation, not a replay. -/
theorem C10_whitespace_key_distinct_witness :
    TransactionService.create storeA reqC 2 9 =
      ((storeA.insert (newTransaction reqC 2 9)).1,
       .ok (newTransaction reqC 2 9, true)) :=
  (C10_whitespace_key_distinct InMemoryStorage.new storeA reqA reqC 1 2 0 9
    txnA (by decide) (by decide) (by decide) (by decide) (by decide)).1
